import Mathlib

/-!
# Verification of the text-mining workbench (`app.py`)

A shallow embedding of the analytical core of the Streamlit text-mining
tool: the tokenizer adapter (`perform_morphological_analysis`), the
frequency reporter (`generate_word_report`), the word-cloud filter
(`generate_wordcloud_image`), the co-occurrence network builder
(`generate_cooccurrence_network_html`), the KWIC search
(`perform_kwic_search`) and the stop-word set builder
(`final_stop_words_set_for_analysis`).

Python strings are modelled by Lean `String`; Python lists by `List`;
Python sets by `Finset String`; Python dict/`Counter` aggregation by
counting functions together with first-occurrence-ordered key lists
(CPython dicts iterate in insertion order).  Exact rational arithmetic
stands in for float arithmetic in the relative-frequency computation,
with `round(x, 3)` modelled by round-half-to-even at three decimals.
The MeCab tagger is an external collaborator and is passed in as an
abstract function from text to raw tagger nodes.
-/

namespace TextMining

/-- A raw node as produced by the external MeCab tagger: a surface string
and the comma-split feature fields (`node.feature.split(',')`). -/
structure RawNode where
  surface : String
  features : List String
deriving Repr, DecidableEq

/-- A morpheme record as built by `perform_morphological_analysis`
(the dict with keys 表層形, 原形, 品詞, 品詞細分類1..3, 活用型, 活用形, 読み, 発音). -/
structure Morpheme where
  surface : String      -- 表層形
  base : String         -- 原形
  pos : String          -- 品詞
  posSub1 : String      -- 品詞細分類1
  posSub2 : String      -- 品詞細分類2
  posSub3 : String      -- 品詞細分類3
  conjType : String     -- 活用型
  conjForm : String     -- 活用形
  reading : String      -- 読み
  pron : String         -- 発音
deriving Repr, DecidableEq

/-- Characters stripped by Python `str.strip()` restricted to the
whitespace repertoire relevant for this application: ASCII whitespace
plus the ideographic space U+3000. -/
def isPySpace (c : Char) : Bool :=
  c = ' ' || c = '\t' || c = '\n' || c = '\r' ||
  c = Char.ofNat 0x0b || c = Char.ofNat 0x0c || c = Char.ofNat 0x3000

/-- `str.strip()` on a character list: drop whitespace from both ends. -/
def pyStripChars (cs : List Char) : List Char :=
  ((cs.dropWhile isPySpace).reverse.dropWhile isPySpace).reverse

/-- Python `str.strip()`. -/
def pyStrip (s : String) : String := ⟨pyStripChars s.data⟩

/-- Python `str.lower()` on one character.  Only ASCII letters change
case in the character repertoire this application handles (Japanese
characters are caseless). -/
def pyLowerChar (c : Char) : Char :=
  if 65 ≤ c.toNat ∧ c.toNat ≤ 90 then Char.ofNat (c.toNat + 32) else c

/-- Python `str.lower()`. -/
def pyLower (s : String) : String := ⟨s.data.map pyLowerChar⟩

/-- Feature field access `features[i]`, total with default `""`;
the tagger contract guarantees at least seven fields. -/
def field (n : RawNode) (i : Nat) : String := n.features.getD i ""

/-- The morpheme dict built from one tagger node in
`perform_morphological_analysis` (app.py lines 120–126):
原形 falls back to the surface form when field 6 is the sentinel `"*"`. -/
def mkMorpheme (n : RawNode) : Morpheme where
  surface := n.surface
  base := if field n 6 ≠ "*" then field n 6 else n.surface
  pos := field n 0
  posSub1 := field n 1
  posSub2 := field n 2
  posSub3 := field n 3
  conjType := field n 4
  conjForm := field n 5
  reading := if n.features.length > 7 ∧ field n 7 ≠ "*" then field n 7 else ""
  pron := if n.features.length > 8 ∧ field n 8 ≠ "*" then field n 8 else ""

/-- `perform_morphological_analysis` (app.py lines 112–128), with the
external tagger abstracted as `tag : String → List RawNode`
(`parseToNode` iteration).  Nodes with an empty surface (BOS/EOS) are
skipped; an empty input yields the empty sequence. -/
def perform_morphological_analysis (tag : String → List RawNode) (text : String) :
    List Morpheme :=
  if text = "" then []
  else (tag text).filterMap fun n =>
    if n.surface = "" then none else some (mkMorpheme n)

/-- The noun sub-classification-1 values excluded by the frequency
reporter (app.py line 135). -/
def reportNounExcl : List String := ["非自立", "数", "代名詞", "接尾", "サ変接続", "副詞可能"]

/-- The narrower noun sub-classification-1 exclusion list of the
word-cloud builder (app.py line 163). -/
def wordcloudNounExcl : List String := ["数", "非自立", "代名詞", "接尾"]

/-- The frequency reporter's per-morpheme filter (app.py lines 133–137):
keep iff the part-of-speech is targeted, the base form is not a stop
word, and a noun's sub-classification-1 is not in `reportNounExcl`. -/
def reportKeep (target : List String) (stop : Finset String) (m : Morpheme) : Bool :=
  decide (m.pos ∈ target ∧ m.base ∉ stop ∧
    ¬(m.pos = "名詞" ∧ m.posSub1 ∈ reportNounExcl))

/-- The word-cloud builder's per-morpheme filter (app.py lines 161–164). -/
def wordcloudKeep (target : List String) (stop : Finset String) (m : Morpheme) : Bool :=
  decide (m.pos ∈ target ∧ m.base ∉ stop ∧
    ¬(m.pos = "名詞" ∧ m.posSub1 ∈ wordcloudNounExcl))

/-- The co-occurrence network builder's per-morpheme filter
(app.py lines 178–182): the reporter's rule plus dropping non-noun base
forms shorter than two characters. -/
def netKeep (target : List String) (stop : Finset String) (m : Morpheme) : Bool :=
  decide (m.pos ∈ target ∧ m.base ∉ stop ∧
    ¬(m.pos = "名詞" ∧ m.posSub1 ∈ reportNounExcl) ∧
    ¬(m.base.length < 2 ∧ m.pos ≠ "名詞"))

/-- First-occurrence deduplication: the distinct elements of a list in
order of first appearance — the iteration order of the keys of a CPython
dict or `Counter` built by scanning the list. -/
def firstDedup {α : Type} [DecidableEq α] : List α → List α
  | [] => []
  | x :: xs => x :: (firstDedup xs).filter (fun y => y ≠ x)

/-- `Counter` lookup: the number of occurrences of `w` in `l`. -/
def countOf (l : List String) (w : String) : Nat := l.count w

/-- Stable insertion of `x` before the first element whose count does not
exceed `x`'s. -/
def insertByCount (counts : String → Nat) (x : String) : List String → List String
  | [] => [x]
  | y :: ys =>
    if counts y ≤ counts x then x :: y :: ys else y :: insertByCount counts x ys

/-- `Counter.most_common()` key order: the distinct words sorted by
descending count, ties kept in first-insertion order (CPython's `sorted`
is stable). -/
def mostCommon (counts : String → Nat) (l : List String) : List String :=
  (firstDedup l).foldr (insertByCount counts) []

/-- Round-half-to-even to an integer, the behaviour of Python `round`. -/
def pyRoundInt (q : ℚ) : ℤ :=
  let f := ⌊q⌋
  if q - f < 1/2 then f
  else if q - f > 1/2 then f + 1
  else if f % 2 = 0 then f else f + 1

/-- Python `round(x, 3)`: round half to even at three decimal places. -/
def pyRound3 (q : ℚ) : ℚ := (pyRoundInt (q * 1000) : ℚ) / 1000

/-- One row of the frequency report (順位, 単語 (原形), 出現数,
出現頻度 (%), 品詞). -/
structure ReportRow where
  rank : Nat
  word : String
  count : Nat
  freq : ℚ
  pos : String
deriving Repr, DecidableEq

/-- The morphemes surviving the reporter's filter
(`report_target_morphemes`, app.py lines 132–137). -/
def report_target_morphemes (all : List Morpheme) (target : List String)
    (stop : Finset String) : List Morpheme :=
  all.filter (reportKeep target stop)

/-- The representative part-of-speech recorded for a base form
(app.py lines 141–145): the reverse scan inserts a word's info the first
time it is seen, so the last forward occurrence wins. -/
def representativePos (filtered : List Morpheme) (w : String) : String :=
  (((filtered.reverse).find? (fun m => m.base == w)).map (fun m => m.pos)).getD ""

/-- `generate_word_report` (app.py lines 130–155): the report rows, the
total unfiltered morpheme count, and the total filtered morpheme count. -/
def generate_word_report (all : List Morpheme) (target : List String)
    (stop : Finset String) : List ReportRow × Nat × Nat :=
  if all = [] then ([], 0, 0)
  else
    let filtered := report_target_morphemes all target stop
    if filtered = [] then ([], all.length, 0)
    else
      let bases := filtered.map (fun m => m.base)
      let total := all.length
      let totalTarget := ((firstDedup bases).map (countOf bases)).sum
      let rows := (mostCommon (countOf bases) bases).enum.map fun p =>
        { rank := p.1 + 1
          word := p.2
          count := countOf bases p.2
          freq := pyRound3 (if 0 < total then (countOf bases p.2 : ℚ) / total * 100 else 0)
          pos := representativePos filtered p.2 : ReportRow }
      (rows, total, totalTarget)

/-- The word-cloud builder's surviving base forms
(`wordcloud_words`, app.py lines 160–164). -/
def wordcloud_words (all : List Morpheme) (target : List String)
    (stop : Finset String) : List String :=
  (all.filter (wordcloudKeep target stop)).map (fun m => m.base)

/-- The field a KWIC search matches on: 原形 (base form) or 表層形
(surface form). -/
inductive KwicField where
  | base
  | surface
deriving Repr, DecidableEq

/-- Select the chosen field of a morpheme
(`morpheme_item[search_key_type_str]`). -/
def kwicFieldOf (f : KwicField) (m : Morpheme) : String :=
  match f with
  | .base => m.base
  | .surface => m.surface

/-- One KWIC result row (左文脈, キーワード, 右文脈). -/
structure KwicRow where
  left : String
  keyword : String
  right : String
deriving Repr, DecidableEq

/-- `perform_kwic_search` (app.py lines 217–228): linear scan; a morpheme
matches when its selected field, lowercased, equals the lowercased
keyword; contexts are the delimiter-free joins of the surface forms of
`all[max(0,i-window):i]` and `all[i+1:min(len,i+1+window)]`. -/
def perform_kwic_search (all : List Morpheme) (keyword : String)
    (fld : KwicField) (window : Nat) : List KwicRow :=
  if pyStrip keyword = "" ∨ all = [] then []
  else all.enum.filterMap fun p =>
    if pyLower (kwicFieldOf fld p.2) = pyLower keyword then
      some { left := String.join (((all.take p.1).drop (p.1 - window)).map (fun m => m.surface))
             keyword := p.2.surface
             right := String.join (((all.drop (p.1 + 1)).take window).map (fun m => m.surface)) }
    else none

/-- A sentence-terminal character of the splitting regex `[。\n！？]+`
(app.py line 185). -/
def isSentTerm (c : Char) : Bool :=
  c = '。' || c = '\n' || c = '！' || c = '？'

/-- `re.split(r'[。\n！？]+', text)` on a character list: the segments
between maximal runs of terminal characters (a leading or trailing run
contributes an empty segment, as in Python). -/
def splitRuns : List Char → List (List Char)
  | [] => [[]]
  | c :: cs =>
    if isSentTerm c then
      match cs with
      | [] => [[], []]
      | c' :: _ => if isSentTerm c' then splitRuns cs else [] :: splitRuns cs
    else
      match splitRuns cs with
      | [] => [[c]]
      | s :: rest => (c :: s) :: rest

/-- The sentence list of the co-occurrence builder (app.py line 185):
split on runs of terminal characters, strip each segment, drop the empty
ones. -/
def sentencesOf (text : String) : List String :=
  (((splitRuns text.data).map (fun cs => pyStrip ⟨cs⟩)).filter (fun s => s ≠ ""))

/-- The 原形 extracted from a raw tagger node inside the co-occurrence
sentence loop (app.py line 191), identical to the adapter's rule. -/
def originalForm (n : RawNode) : String :=
  if field n 6 ≠ "*" then field n 6 else n.surface

/-- `words_in_sentence` (app.py lines 188–193): the node-candidate base
forms occurring in one re-tokenized sentence, in tagger order, with
repetition. -/
def wordsInSentence (tag : String → List RawNode) (candidates : List String)
    (s : String) : List String :=
  (tag s).filterMap fun n =>
    if n.surface = "" then none
    else if originalForm n ∈ candidates then some (originalForm n) else none

/-- Lexicographic comparison of character lists by code point — Python's
string `<`. -/
def charListLt : List Char → List Char → Bool
  | [], [] => false
  | [], _ :: _ => true
  | _ :: _, [] => false
  | c :: cs, d :: ds =>
    if c.toNat < d.toNat then true
    else if d.toNat < c.toNat then false
    else charListLt cs ds

/-- Python string `<`. -/
def strLt (a b : String) : Bool := charListLt a.data b.data

/-- Stable insertion into an ascending list of strings. -/
def insertAsc (x : String) : List String → List String
  | [] => [x]
  | y :: ys => if strLt x y || x == y then x :: y :: ys else y :: insertAsc x ys

/-- Python `sorted` on strings. -/
def sortStrings (l : List String) : List String := l.foldr insertAsc []

/-- `sorted(list(set(words_in_sentence)))` (app.py line 194). -/
def sortedWordSet (ws : List String) : List String := sortStrings (firstDedup ws)

/-- `itertools.combinations(l, 2)`: ordered pairs of elements in list
order. -/
def pairs2 : List String → List (String × String)
  | [] => []
  | x :: xs => xs.map (fun y => (x, y)) ++ pairs2 xs

/-- The stream of sentence-local co-occurrence pairs whose multiset is
`cooccurrence_counts_map` (app.py lines 186–194): each sentence
contributes the size-2 combinations of its sorted distinct word set. -/
def coocPairStream (tag : String → List RawNode) (candidates : List String)
    (sentences : List String) : List (String × String) :=
  (sentences.map (fun s => pairs2 (sortedWordSet (wordsInSentence tag candidates s)))).flatten

/-- `cooccurrence_counts_map[pair]`. -/
def coocCount (tag : String → List RawNode) (candidates : List String)
    (sentences : List String) (p : String × String) : Nat :=
  (coocPairStream tag candidates sentences).count p

/-- The rendered co-occurrence graph, keeping the data the claims speak
about: one node per candidate word with its occurrence count, one edge
per qualifying pair with its co-occurrence count (the float size/weight
transforms and styling of app.py lines 197–213 are presentation only). -/
structure CoocGraph where
  nodes : List (String × Nat)
  edges : List (String × String × Nat)
deriving Repr, DecidableEq

/-- The outcome of the network builder: a fatal-error return (`st.error`
paths), the informational no-output sentinel (`st.info` paths), or a
graph. -/
inductive NetResult where
  | fatal : NetResult
  | empty : NetResult
  | graph : CoocGraph → NetResult
deriving Repr, DecidableEq

/-- `temp_words_for_nodes` (app.py lines 177–182). -/
def temp_words_for_nodes (all : List Morpheme) (target : List String)
    (stop : Finset String) : List String :=
  (all.filter (netKeep target stop)).map (fun m => m.base)

/-- `node_candidates` keys (app.py line 183): distinct filtered words
with count ≥ `node_min_freq`, in first-insertion order. -/
def nodeCandidates (all : List Morpheme) (target : List String)
    (stop : Finset String) (nodeMinFreq : Nat) : List String :=
  (firstDedup (temp_words_for_nodes all target stop)).filter
    (fun w => nodeMinFreq ≤ countOf (temp_words_for_nodes all target stop) w)

/-- `generate_cooccurrence_network_html` (app.py lines 173–215).
`fontOk` abstracts the existence of the font file; the tagger is the
abstract `tag`.  `.fatal` stands for the `st.error` early return,
`.empty` for every `st.info` no-output return (`None` with an
informational message). -/
def generate_cooccurrence_network (tag : String → List RawNode)
    (all : List Morpheme) (text : String) (fontOk : Bool)
    (target : List String) (stop : Finset String)
    (nodeMinFreq edgeMinFreq : Nat) : NetResult :=
  if all = [] ∨ pyStrip text = "" then .empty
  else if ¬fontOk then .fatal
  else
    let words := temp_words_for_nodes all target stop
    let cands := nodeCandidates all target stop nodeMinFreq
    if cands.length < 2 then .empty
    else
      let stream := coocPairStream tag cands (sentencesOf text)
      if stream = [] then .empty
      else
        let edges := (firstDedup stream).filterMap fun p =>
          if edgeMinFreq ≤ stream.count p then some (p.1, p.2, stream.count p) else none
        if edges = [] then .empty
        else .graph { nodes := cands.map (fun w => (w, countOf words w)), edges := edges }

/-- `final_stop_words_set_for_analysis` (app.py lines 250–253):
`re.split(r'[,\n]', input)` splits at every comma or newline. -/
def splitCommaNewline : List Char → List (List Char)
  | [] => [[]]
  | c :: cs =>
    if c = ',' ∨ c = '\n' then [] :: splitCommaNewline cs
    else
      match splitCommaNewline cs with
      | [] => [[c]]
      | s :: rest => (c :: s) :: rest

/-- The stop-word set builder (app.py lines 250–253): when the input is
not whitespace-only, split on commas and newlines, strip each piece,
drop empty pieces, lowercase, and collect into a set. -/
def final_stop_words_set_for_analysis (input : String) : Finset String :=
  if pyStrip input = "" then ∅
  else
    (((splitCommaNewline input.data).map (fun cs => pyStrip ⟨cs⟩)).filter
      (fun w => w ≠ "")).map pyLower |>.toFinset

/-- The all-empty morpheme record, used as the out-of-range default when
a sequence is addressed by index. -/
def emptyMorpheme : Morpheme :=
  { surface := "", base := "", pos := "", posSub1 := "", posSub2 := "", posSub3 := "",
    conjType := "", conjForm := "", reading := "", pron := "" }

instance : Inhabited Morpheme := ⟨emptyMorpheme⟩

/-- The KWIC row the spec prescribes for a match at index `i`: left
context over `[max(0, i-window), i)` and right context over
`(i, min(length, i+1+window))`, both joined without a delimiter
(subtraction on `Nat` is truncating, so `i - window = max 0 (i - window)`,
and `take window` past position `i+1` stops at the sequence's end). -/
def kwicRowAt (all : List Morpheme) (window i : Nat) : KwicRow where
  left := String.join (((all.take i).drop (i - window)).map (fun m => m.surface))
  keyword := (all.getD i emptyMorpheme).surface
  right := String.join (((all.drop (i + 1)).take window).map (fun m => m.surface))

section Examples

/-- A one-word noun morpheme used in concrete test inputs. -/
def nounM (b : String) : Morpheme :=
  { surface := b, base := b, pos := "名詞", posSub1 := "一般", posSub2 := "", posSub3 := "",
    conjType := "", conjForm := "", reading := "", pron := "" }

/-- A raw tagger node for a one-word general noun. -/
def nounNode (b : String) : RawNode :=
  { surface := b, features := ["名詞", "一般", "*", "*", "*", "*", b] }

/-- A toy tagger for the spec's co-occurrence example: sentence
`"A B C"` tokenizes to nouns A, B, C and sentence `"A B"` to nouns A, B. -/
def exampleTag : String → List RawNode := fun s =>
  if s = "A B C" then [nounNode "A", nounNode "B", nounNode "C"]
  else if s = "A B" then [nounNode "A", nounNode "B"]
  else []

/-- The morpheme sequence of the example text `"A B C。A B"`. -/
def exampleMorphemes : List Morpheme :=
  [nounM "A", nounM "B", nounM "C", nounM "A", nounM "B"]

end Examples

/-! ## Helper lemmas -/

theorem mem_firstDedup {α : Type} [DecidableEq α] (l : List α) (a : α) :
    a ∈ firstDedup l ↔ a ∈ l := by
  induction l with
  | nil => simp [firstDedup]
  | cons x xs ih =>
    by_cases hax : a = x
    · simp [firstDedup, hax]
    · simp [firstDedup, hax, List.mem_filter, ih]

theorem nodup_firstDedup {α : Type} [DecidableEq α] (l : List α) :
    (firstDedup l).Nodup := by
  induction l with
  | nil => simp [firstDedup]
  | cons x xs ih =>
    refine List.Nodup.cons ?_ (List.Nodup.filter _ ih)
    intro hx
    have := (List.mem_filter.mp hx).2
    simp at this

theorem insertByCount_perm (counts : String → Nat) (x : String) (l : List String) :
    (insertByCount counts x l).Perm (x :: l) := by
  induction l with
  | nil => simp [insertByCount]
  | cons y ys ih =>
    by_cases h : counts y ≤ counts x
    · simp [insertByCount, h]
    · simp only [insertByCount, if_neg h]
      exact (ih.cons y).trans (List.Perm.swap x y ys)

theorem mostCommon_perm (counts : String → Nat) (l : List String) :
    (mostCommon counts l).Perm (firstDedup l) := by
  unfold mostCommon
  induction firstDedup l with
  | nil => simp
  | cons x xs ih =>
    simpa using (insertByCount_perm counts x (xs.foldr (insertByCount counts) [])).trans
      (ih.cons x)

theorem insertAsc_perm (x : String) (l : List String) : (insertAsc x l).Perm (x :: l) := by
  induction l with
  | nil => simp [insertAsc]
  | cons y ys ih =>
    by_cases h : strLt x y || x == y
    · simp [insertAsc, h]
    · simp only [insertAsc, if_neg h]
      exact (ih.cons y).trans (List.Perm.swap x y ys)

theorem sortStrings_perm (l : List String) : (sortStrings l).Perm l := by
  unfold sortStrings
  induction l with
  | nil => simp
  | cons x xs ih => exact (insertAsc_perm x (xs.foldr insertAsc [])).trans (ih.cons x)

theorem sortedWordSet_nodup (ws : List String) : (sortedWordSet ws).Nodup :=
  ((sortStrings_perm (firstDedup ws)).nodup_iff).mpr (nodup_firstDedup ws)

theorem mem_sortedWordSet (ws : List String) (a : String) :
    a ∈ sortedWordSet ws ↔ a ∈ ws := by
  rw [sortedWordSet, (sortStrings_perm (firstDedup ws)).mem_iff, mem_firstDedup]

theorem mem_pairs2 (l : List String) (p : String × String) (h : p ∈ pairs2 l) :
    p.1 ∈ l ∧ p.2 ∈ l := by
  induction l with
  | nil => simp [pairs2] at h
  | cons x xs ih =>
    simp only [pairs2, List.mem_append, List.mem_map] at h
    rcases h with ⟨y, hy, rfl⟩ | h
    · exact ⟨List.mem_cons_self _ _, List.mem_cons_of_mem _ hy⟩
    · exact ⟨List.mem_cons_of_mem _ (ih h).1, List.mem_cons_of_mem _ (ih h).2⟩

theorem pairs2_nodup (l : List String) (h : l.Nodup) : (pairs2 l).Nodup := by
  induction l with
  | nil => simp [pairs2]
  | cons x xs ih =>
    rcases List.nodup_cons.mp h with ⟨hx, hxs⟩
    refine List.Nodup.append ?_ (ih hxs) ?_
    · exact (List.nodup_map_iff (fun a b hab => by simpa using congrArg Prod.snd hab)).mpr hxs
    · intro p hp hp'
      rcases List.mem_map.mp hp with ⟨y, _, rfl⟩
      exact hx ((mem_pairs2 xs _ hp').1)

theorem count_eq_ite_of_nodup {α : Type} [BEq α] [LawfulBEq α] (l : List α) (a : α)
    (h : l.Nodup) : l.count a = if a ∈ l then 1 else 0 := by
  induction l with
  | nil => simp
  | cons x l ih =>
    rcases List.nodup_cons.mp h with ⟨hx, hl⟩
    rw [List.count_cons, ih hl]
    by_cases hax : a = x
    · subst hax
      simp [hx]
    · simp [hax, Ne.symm hax]

theorem sum_count_complete {α : Type} [DecidableEq α] :
    ∀ (ws l : List α), ws.Nodup → (∀ a, a ∈ ws ↔ a ∈ l) →
      (ws.map l.count).sum = l.length := by
  intro ws
  induction ws with
  | nil =>
    intro l _ hmem
    have : l = [] := by
      cases l with
      | nil => rfl
      | cons x xs => exact absurd ((hmem x).mpr (List.mem_cons_self _ _)) (by simp)
    simp [this]
  | cons w ws ih =>
    intro l hnd hmem
    rcases List.nodup_cons.mp hnd with ⟨hw, hnd'⟩
    have hcount : ∀ a ∈ ws, l.count a = (l.filter (fun b => b ≠ w)).count a := by
      intro a ha
      have haw : a ≠ w := fun h => hw (h ▸ ha)
      rw [List.count_filter (by simpa using haw)]
    have hmem' : ∀ a, a ∈ ws ↔ a ∈ l.filter (fun b => b ≠ w) := by
      intro a
      constructor
      · intro ha
        have haw : a ≠ w := fun h => hw (h ▸ ha)
        exact List.mem_filter.mpr ⟨(hmem a).mp (List.mem_cons_of_mem _ ha), by simpa using haw⟩
      · intro ha
        rcases List.mem_filter.mp ha with ⟨hal, haw⟩
        have := (hmem a).mpr hal
        rcases List.mem_cons.mp this with h | h
        · exact absurd h (by simpa using haw)
        · exact h
    have hlen : l.length = l.count w + (l.filter (fun b => b ≠ w)).length := by
      have h := List.length_eq_countP_add_countP (fun b => b == w) l
      rw [List.countP_eq_length_filter, List.countP_eq_length_filter] at h
      rw [List.count_eq_countP, List.countP_eq_length_filter, h]
      congr 2
      apply List.filter_congr
      intro b _
      simp
    rw [List.map_cons, List.sum_cons, hlen,
      List.map_congr_left hcount, ih _ hnd' hmem']

theorem mostCommon_sum_count (bases : List String) :
    ((mostCommon (countOf bases) bases).map (countOf bases)).sum = bases.length := by
  have h1 : ((mostCommon (countOf bases) bases).map (countOf bases)).sum
      = ((firstDedup bases).map (countOf bases)).sum :=
    ((mostCommon_perm (countOf bases) bases).map (countOf bases)).sum_eq
  rw [h1]
  exact sum_count_complete (firstDedup bases) bases (nodup_firstDedup bases)
    (fun a => mem_firstDedup bases a)

theorem sum_ite_eq_countP {α : Type} (l : List α) (P : α → Prop) [DecidablePred P] :
    (l.map (fun a => if P a then 1 else 0)).sum = l.countP (fun a => decide (P a)) := by
  induction l with
  | nil => simp
  | cons a l ih =>
    by_cases h : P a <;> simp [List.countP_cons, h, ih, Nat.add_comm]

/-! ## Claim theorems -/

/-- C1: the frequency reporter keeps a morpheme iff its part-of-speech is
in the target set, its base form is not a stop word, and — for nouns
(名詞) — its sub-classification-1 is none of
非自立, 数, 代名詞, 接尾, サ変接続, 副詞可能; for every morpheme of every
input sequence. -/
theorem report_filter_keeps_iff (all : List Morpheme) (target : List String)
    (stop : Finset String) (m : Morpheme) (h : m ∈ all) :
    m ∈ report_target_morphemes all target stop ↔
      m.pos ∈ target ∧ m.base ∉ stop ∧
        (m.pos = "名詞" →
          m.posSub1 ∉ (["非自立", "数", "代名詞", "接尾", "サ変接続", "副詞可能"] : List String)) := by
  have : reportNounExcl = ["非自立", "数", "代名詞", "接尾", "サ変接続", "副詞可能"] := rfl
  simp only [report_target_morphemes, List.mem_filter, reportKeep, this,
    decide_eq_true_eq, h, true_and]
  tauto

/-- Witness for C1 at a concrete input: a general noun with targeted
part-of-speech and no stop-word hit is kept. -/
theorem report_filter_keeps_iff_witness :
    nounM "A" ∈ [nounM "A"] ∧
      (nounM "A" ∈ report_target_morphemes [nounM "A"] ["名詞"] ∅ ↔
        (nounM "A").pos ∈ ["名詞"] ∧ (nounM "A").base ∉ (∅ : Finset String) ∧
          ((nounM "A").pos = "名詞" →
            (nounM "A").posSub1 ∉
              (["非自立", "数", "代名詞", "接尾", "サ変接続", "副詞可能"] : List String))) :=
  ⟨by decide, report_filter_keeps_iff [nounM "A"] ["名詞"] ∅ (nounM "A") (by decide)⟩

/-- C3: the report's row counts sum to exactly the number of morphemes
passing the report filter, and that number is the returned
filtered-morpheme total. -/
theorem report_counts_sum_exact (all : List Morpheme) (target : List String)
    (stop : Finset String) :
    (((generate_word_report all target stop).1.map (fun r => r.count)).sum
        = (report_target_morphemes all target stop).length)
    ∧ (generate_word_report all target stop).2.2
        = (report_target_morphemes all target stop).length := by
  by_cases hall : all = []
  · subst hall
    simp [generate_word_report, report_target_morphemes]
  · by_cases hf : report_target_morphemes all target stop = []
    · simp [generate_word_report, hall, hf]
    · have hrows : (generate_word_report all target stop).1.map (fun r => r.count)
          = (mostCommon (countOf (report_target_morphemes all target stop |>.map (fun m => m.base)))
              (report_target_morphemes all target stop |>.map (fun m => m.base))).map
              (countOf (report_target_morphemes all target stop |>.map (fun m => m.base))) := by
        simp only [generate_word_report, if_neg hall, if_neg hf, List.map_map]
        have := List.enum_map_snd (mostCommon
          (countOf (report_target_morphemes all target stop |>.map (fun m => m.base)))
          (report_target_morphemes all target stop |>.map (fun m => m.base)))
        calc ((mostCommon (countOf (report_target_morphemes all target stop |>.map (fun m => m.base)))
              (report_target_morphemes all target stop |>.map (fun m => m.base))).enum.map
                (fun p => countOf (report_target_morphemes all target stop |>.map (fun m => m.base)) p.2))
            = ((mostCommon (countOf (report_target_morphemes all target stop |>.map (fun m => m.base)))
              (report_target_morphemes all target stop |>.map (fun m => m.base))).enum.map Prod.snd).map
                (countOf (report_target_morphemes all target stop |>.map (fun m => m.base))) := by
              rw [List.map_map]; rfl
          _ = _ := by rw [this]
      constructor
      · rw [hrows, mostCommon_sum_count, List.length_map]
      · simp only [generate_word_report, if_neg hall, if_neg hf]
        exact (sum_count_complete _ _ (nodup_firstDedup _)
          (fun a => mem_firstDedup _ a)).trans (List.length_map _ _)

/-- C8: the word-cloud filter uses the strictly narrower noun exclusion
set 数, 非自立, 代名詞, 接尾: a noun whose sub-classification-1 is
サ変接続 or 副詞可能 and which passes the part-of-speech and stop-word
tests is kept by the word-cloud filter but discarded by the reporter's
filter. -/
theorem wordcloud_filter_narrower (target : List String) (stop : Finset String)
    (m : Morpheme) (h1 : m.pos = "名詞")
    (h2 : m.posSub1 = "サ変接続" ∨ m.posSub1 = "副詞可能")
    (h3 : m.pos ∈ target) (h4 : m.base ∉ stop) :
    wordcloudKeep target stop m = true ∧ reportKeep target stop m = false := by
  constructor
  · simp only [wordcloudKeep, decide_eq_true_eq]
    refine ⟨h3, h4, ?_⟩
    rintro ⟨-, hmem⟩
    rcases h2 with h2 | h2 <;> simp [wordcloudNounExcl, h2] at hmem
  · simp only [reportKeep, decide_eq_false_iff_not, not_and, not_not]
    intro _ _
    rcases h2 with h2 | h2 <;> simp [reportNounExcl, h1, h2]

/-- A サ変接続 noun, used as the C8 witness input. -/
def sahenNounM : Morpheme :=
  { surface := "分析", base := "分析", pos := "名詞", posSub1 := "サ変接続",
    posSub2 := "", posSub3 := "", conjType := "", conjForm := "",
    reading := "", pron := "" }

/-- Witness for C8: the サ変接続 noun 分析 survives the word-cloud filter
and is dropped by the reporter. -/
theorem wordcloud_filter_narrower_witness :
    wordcloudKeep ["名詞"] ∅ sahenNounM = true ∧
      reportKeep ["名詞"] ∅ sahenNounM = false :=
  wordcloud_filter_narrower ["名詞"] ∅ sahenNounM (by decide) (Or.inl (by decide))
    (by decide) (by decide)

/-- C2: every report row's relative frequency is the row count over the
length of the original unfiltered sequence times 100, rounded to three
decimals; the reported total is the unfiltered length; and an empty
sequence yields an empty report. -/
theorem report_relative_frequency (all : List Morpheme) (target : List String)
    (stop : Finset String) (i : Nat)
    (h : i < (generate_word_report all target stop).1.length) :
    (((generate_word_report all target stop).1.get ⟨i, h⟩).freq
        = pyRound3 ((((generate_word_report all target stop).1.get ⟨i, h⟩).count : ℚ)
            / (all.length : ℚ) * 100))
    ∧ (generate_word_report all target stop).2.1 = all.length
    ∧ generate_word_report ([] : List Morpheme) target stop = ([], 0, 0) := by
  refine ⟨?_, ?_, by simp [generate_word_report]⟩
  · by_cases hall : all = []
    · exfalso
      subst hall
      simp [generate_word_report] at h
    · by_cases hf : report_target_morphemes all target stop = []
      · exfalso
        simp [generate_word_report, hall, hf] at h
      · have hpos : 0 < all.length := List.length_pos.mpr hall
        simp only [generate_word_report, if_neg hall, if_neg hf, List.get_eq_getElem,
          List.getElem_map, List.getElem_enum, if_pos hpos] at h ⊢
  · by_cases hall : all = []
    · subst hall
      simp [generate_word_report]
    · by_cases hf : report_target_morphemes all target stop = []
      · simp [generate_word_report, hall, hf]
      · simp [generate_word_report, hall, hf]

/-- Witness for C2 at a concrete input: the first row of the report over
five morphemes. -/
theorem report_relative_frequency_witness :
    ((generate_word_report exampleMorphemes ["名詞"] ∅).1.getD 0
        ⟨0, "", 0, 0, ""⟩).freq
      = pyRound3 ((((generate_word_report exampleMorphemes ["名詞"] ∅).1.getD 0
          ⟨0, "", 0, 0, ""⟩).count : ℚ) / ((exampleMorphemes).length : ℚ) * 100) := by
  have h : 0 < (generate_word_report exampleMorphemes ["名詞"] ∅).1.length := by decide
  have h2 := (report_relative_frequency exampleMorphemes ["名詞"] ∅ 0 h).1
  rw [List.getD_eq_getElem _ _ h]
  simpa using h2

/-- C4: co-occurrence counting is sentence-scoped and deduplicated —
the count of a pair is the number of sentences whose sorted distinct
word set yields it as a size-2 combination (each sentence contributing
at most one increment, since the per-sentence pair list is
duplicate-free); and on the spec's example, S1 = "A B C" and
S2 = "A B" give (A,B) count 2, (A,C) and (B,C) count 1, with only edge
(A,B) emitted at edge-minimum-frequency 2. -/
theorem cooccurrence_sentence_scoped :
    (∀ (tag : String → List RawNode) (cands : List String) (text : String)
        (p : String × String),
        coocCount tag cands (sentencesOf text) p
          = (sentencesOf text).countP
              (fun s => decide (p ∈ pairs2 (sortedWordSet (wordsInSentence tag cands s)))))
    ∧ (∀ ws : List String, (sortedWordSet ws).Nodup ∧ (pairs2 (sortedWordSet ws)).Nodup)
    ∧ sentencesOf "A B C。A B" = ["A B C", "A B"]
    ∧ sentencesOf "。x！！y\n\nz？" = ["x", "y", "z"]
    ∧ coocCount exampleTag ["A", "B", "C"] (sentencesOf "A B C。A B") ("A", "B") = 2
    ∧ coocCount exampleTag ["A", "B", "C"] (sentencesOf "A B C。A B") ("A", "C") = 1
    ∧ coocCount exampleTag ["A", "B", "C"] (sentencesOf "A B C。A B") ("B", "C") = 1
    ∧ generate_cooccurrence_network exampleTag exampleMorphemes "A B C。A B" true
          ["名詞"] ∅ 1 2
        = .graph { nodes := [("A", 2), ("B", 2), ("C", 1)], edges := [("A", "B", 2)] } := by
  refine ⟨?_, ?_, by rfl, by rfl, by decide, by decide, by decide, by rfl⟩
  · intro tag cands text p
    rw [coocCount, coocPairStream, List.count_flatten, List.map_map]
    have hmap : ∀ s ∈ sentencesOf text,
        (List.count p ∘ fun s => pairs2 (sortedWordSet (wordsInSentence tag cands s))) s
          = (fun s => if p ∈ pairs2 (sortedWordSet (wordsInSentence tag cands s))
              then 1 else 0) s := by
      intro s _
      simpa using count_eq_ite_of_nodup _ p
        (pairs2_nodup _ (sortedWordSet_nodup (wordsInSentence tag cands s)))
    rw [List.map_congr_left hmap, sum_ite_eq_countP]
  · intro ws
    exact ⟨sortedWordSet_nodup ws, pairs2_nodup _ (sortedWordSet_nodup ws)⟩

/-- C6: the network builder answers the informational no-output sentinel
— not the fatal-error outcome — when fewer than 2 node candidates
survive the frequency threshold, and when no pair reaches the
edge-minimum-frequency threshold. -/
theorem network_early_exit_sentinels (tag : String → List RawNode)
    (all : List Morpheme) (text : String) (fontOk : Bool) (target : List String)
    (stop : Finset String) (nodeMinFreq edgeMinFreq : Nat)
    (h1 : all ≠ []) (h2 : pyStrip text ≠ "") (h3 : fontOk = true) :
    ((nodeCandidates all target stop nodeMinFreq).length < 2 →
        generate_cooccurrence_network tag all text fontOk target stop nodeMinFreq
            edgeMinFreq = .empty)
    ∧ ((∀ p : String × String,
          coocCount tag (nodeCandidates all target stop nodeMinFreq) (sentencesOf text) p
            < edgeMinFreq) →
        generate_cooccurrence_network tag all text fontOk target stop nodeMinFreq
            edgeMinFreq = .empty) := by
  simp only [generate_cooccurrence_network,
    if_neg (by simp [h1, h2] : ¬(all = [] ∨ pyStrip text = "")),
    if_neg (by simp [h3] : ¬¬(fontOk = true))]
  constructor
  · intro hc
    rw [if_pos hc]
  · intro hp
    by_cases hc : (nodeCandidates all target stop nodeMinFreq).length < 2
    · rw [if_pos hc]
    · rw [if_neg hc]
      by_cases hs : coocPairStream tag (nodeCandidates all target stop nodeMinFreq)
          (sentencesOf text) = []
      · rw [if_pos hs]
      · rw [if_neg hs]
        have hedges : (firstDedup (coocPairStream tag
              (nodeCandidates all target stop nodeMinFreq) (sentencesOf text))).filterMap
                (fun p => if edgeMinFreq ≤ List.count p (coocPairStream tag
                    (nodeCandidates all target stop nodeMinFreq)
                    (sentencesOf text))
                  then some (p.1, p.2, List.count p (coocPairStream tag
                    (nodeCandidates all target stop nodeMinFreq)
                    (sentencesOf text)))
                  else none) = [] := by
          rw [List.filterMap_eq_nil_iff]
          intro p _
          have hlt : List.count p (coocPairStream tag
              (nodeCandidates all target stop nodeMinFreq) (sentencesOf text))
              < edgeMinFreq := hp p
          rw [if_neg (Nat.not_le.mpr hlt)]
        rw [hedges]
        simp

/-- Witness for C6: with node-minimum-frequency 10 no candidate survives
(first exit); with edge-minimum-frequency 5 no pair qualifies (second
exit); both yield the sentinel. -/
theorem network_early_exit_sentinels_witness :
    generate_cooccurrence_network exampleTag exampleMorphemes "A B C。A B" true
        ["名詞"] ∅ 10 2 = .empty
    ∧ generate_cooccurrence_network exampleTag exampleMorphemes "A B C。A B" true
        ["名詞"] ∅ 1 5 = .empty := by
  constructor
  · exact (network_early_exit_sentinels exampleTag exampleMorphemes "A B C。A B" true
      ["名詞"] ∅ 10 2 (by decide) (by decide) rfl).1 (by decide)
  · refine (network_early_exit_sentinels exampleTag exampleMorphemes "A B C。A B" true
      ["名詞"] ∅ 1 5 (by decide) (by decide) rfl).2 ?_
    intro p
    exact Nat.lt_of_le_of_lt (List.count_le_length p _) (by decide)

theorem enum_eq_range_map {α : Type} (l : List α) (d : α) :
    l.enum = (List.range l.length).map (fun i => (i, l.getD i d)) := by
  apply List.ext_getElem
  · simp
  · intro n h1 h2
    have hn : n < l.length := by simpa using h1
    simp only [List.getElem_enum, List.getElem_map, List.getElem_range]
    rw [List.getD_eq_getElem _ _ hn]

/-- C5: KWIC search is a linear scan matching on the case-folded selected
field, with delimiter-free surface-form contexts over
`[max(0, i-window), i)` and `(i, min(length, i+1+window))`, results in
text order, empty result (not an error) on an empty keyword or sequence,
and empty left/right context at the first/last index. -/
theorem kwic_linear_scan (all : List Morpheme) (keyword : String)
    (fld : KwicField) (window : Nat) :
    (pyStrip keyword = "" ∨ all = [] → perform_kwic_search all keyword fld window = [])
    ∧ (pyStrip keyword ≠ "" →
        perform_kwic_search all keyword fld window
          = (List.range all.length).filterMap (fun i =>
              if pyLower (kwicFieldOf fld (all.getD i emptyMorpheme)) = pyLower keyword
              then some (kwicRowAt all window i) else none))
    ∧ (kwicRowAt all window 0).left = ""
    ∧ (all ≠ [] → (kwicRowAt all window (all.length - 1)).right = "") := by
  refine ⟨?_, ?_, ?_, ?_⟩
  · intro h
    rw [perform_kwic_search, if_pos h]
  · intro hk
    by_cases hall : all = []
    · subst hall
      simp [perform_kwic_search]
    · rw [perform_kwic_search, if_neg (by simp [hk, hall]),
        enum_eq_range_map all emptyMorpheme, List.filterMap_map]
      rfl
  · simp only [kwicRowAt, Nat.zero_sub, List.take_zero, List.drop_nil, List.map_nil]
    rfl
  · intro hall
    have h1 : 1 ≤ all.length := List.length_pos.mpr hall
    simp only [kwicRowAt, Nat.sub_add_cancel h1, List.drop_length, List.take_nil,
      List.map_nil]
    rfl

/-- Witness for C5: searching base form "b" over the five-morpheme
example discharges both inner hypotheses at a concrete input. -/
theorem kwic_linear_scan_witness :
    (perform_kwic_search exampleMorphemes "b" .base 1
        = (List.range exampleMorphemes.length).filterMap (fun i =>
            if pyLower (kwicFieldOf .base (exampleMorphemes.getD i emptyMorpheme))
                = pyLower "b"
            then some (kwicRowAt exampleMorphemes 1 i) else none))
    ∧ (kwicRowAt exampleMorphemes 1 (exampleMorphemes.length - 1)).right = "" :=
  ⟨(kwic_linear_scan exampleMorphemes "b" .base 1).2.1 (by decide),
   (kwic_linear_scan exampleMorphemes "b" .base 1).2.2.2 (by decide)⟩

/-- The stop-word set builder as worded by the spec: split on commas and
newlines, trim each piece, lowercase it, discard empty pieces, collect
into a set. -/
def specStopWords (s : String) : Finset String :=
  (((splitCommaNewline s.data).map (fun cs => pyLower (pyStrip ⟨cs⟩))).filter
    (fun w => w ≠ "")).toFinset

theorem mem_splitCommaNewline_subset :
    ∀ (cs : List Char) (piece : List Char), piece ∈ splitCommaNewline cs →
      ∀ c ∈ piece, c ∈ cs := by
  intro cs
  induction cs with
  | nil =>
    intro piece hp c hc
    simp [splitCommaNewline] at hp
    subst hp
    simp at hc
  | cons x xs ih =>
    intro piece hp c hc
    by_cases hx : x = ',' ∨ x = '\n'
    · rw [splitCommaNewline, if_pos hx] at hp
      rcases List.mem_cons.mp hp with rfl | hp
      · simp at hc
      · exact List.mem_cons_of_mem _ (ih piece hp c hc)
    · rw [splitCommaNewline, if_neg hx] at hp
      cases hsplit : splitCommaNewline xs with
      | nil =>
        rw [hsplit] at hp
        simp at hp
        subst hp
        simp at hc
        simp [hc]
      | cons s rest =>
        rw [hsplit] at hp
        rcases List.mem_cons.mp hp with rfl | hp
        · rcases List.mem_cons.mp hc with rfl | hc
          · exact List.mem_cons_self _ _
          · exact List.mem_cons_of_mem _
              (ih s (hsplit ▸ List.mem_cons_self _ _) c hc)
        · exact List.mem_cons_of_mem _
            (ih piece (hsplit ▸ List.mem_cons_of_mem _ hp) c hc)

theorem all_space_of_pyStripChars_nil (cs : List Char)
    (h : pyStripChars cs = []) : ∀ c ∈ cs, isPySpace c = true := by
  intro c hc
  unfold pyStripChars at h
  rw [List.reverse_eq_nil_iff, List.dropWhile_eq_nil_iff] at h
  have hdrop : ∀ x ∈ cs.dropWhile isPySpace, isPySpace x = true := by
    intro x hx
    exact h x (List.mem_reverse.mpr hx)
  have := List.takeWhile_append_dropWhile isPySpace cs
  rcases List.mem_append.mp (by rw [this]; exact hc :
      c ∈ cs.takeWhile isPySpace ++ cs.dropWhile isPySpace) with hc' | hc'
  · exact List.mem_takeWhile_imp hc'
  · exact hdrop c hc'

theorem pyStripChars_nil_of_all_space (cs : List Char)
    (h : ∀ c ∈ cs, isPySpace c = true) : pyStripChars cs = [] := by
  unfold pyStripChars
  rw [List.dropWhile_eq_nil_iff.mpr h]
  rfl

theorem pyLower_eq_empty_iff (w : String) : pyLower w = "" ↔ w = "" := by
  cases w with
  | mk data =>
    constructor
    · intro h
      have h2 : data.map pyLowerChar = [] := congrArg String.data h
      have h3 : data = [] := List.map_eq_nil_iff.mp h2
      rw [h3]
    · intro h
      rw [h]
      rfl

theorem filter_ne_empty_map_lower (l : List String) :
    (l.filter (fun w => w ≠ "")).map pyLower
      = (l.map pyLower).filter (fun w => w ≠ "") := by
  induction l with
  | nil => rfl
  | cons w l ih =>
    by_cases hw : w = ""
    · subst hw
      simpa using ih
    · have hlw : pyLower w ≠ "" := fun h => hw ((pyLower_eq_empty_iff w).mp h)
      simp [hw, hlw]
      simpa using ih

/-- C7: the stop-word builder agrees with the spec's
split–trim–lowercase–discard–collect pipeline for every input, always
succeeds, yields the empty set on a whitespace-only input, and produces
the two concrete examples of the spec. -/
theorem stop_word_builder_correct :
    (∀ s : String, final_stop_words_set_for_analysis s = specStopWords s)
    ∧ (∀ s : String, pyStrip s = "" → final_stop_words_set_for_analysis s = ∅)
    ∧ final_stop_words_set_for_analysis "猫, 犬\nタヌキ" = {"猫", "犬", "タヌキ"}
    ∧ final_stop_words_set_for_analysis "Cat" = {"cat"} := by
  have hempty : ∀ s : String, pyStrip s = "" →
      final_stop_words_set_for_analysis s = ∅ := by
    intro s hs
    rw [final_stop_words_set_for_analysis, if_pos hs]
  refine ⟨?_, hempty, by decide, by decide⟩
  intro s
  by_cases hs : pyStrip s = ""
  · rw [hempty s hs, specStopWords]
    have hall : ∀ c ∈ s.data, isPySpace c = true :=
      all_space_of_pyStripChars_nil s.data (congrArg String.data hs)
    have hfilter : ((splitCommaNewline s.data).map
        (fun cs => pyLower (pyStrip ⟨cs⟩))).filter (fun w => w ≠ "") = [] := by
      rw [List.filter_eq_nil_iff]
      intro w hw
      rcases List.mem_map.mp hw with ⟨piece, hpiece, rfl⟩
      have : pyStrip ⟨piece⟩ = "" := by
        show (⟨pyStripChars piece⟩ : String) = ⟨[]⟩
        rw [pyStripChars_nil_of_all_space piece
          (fun c hc => hall c (mem_splitCommaNewline_subset s.data piece hpiece c hc))]
      rw [this]
      simp [pyLower_eq_empty_iff]
    rw [hfilter]
    rfl
  · rw [final_stop_words_set_for_analysis, if_neg hs, specStopWords]
    congr 1
    rw [filter_ne_empty_map_lower, List.map_map]
    rfl

/-- Witness for C7: the whitespace-only conjunct discharged at a
concrete blank input. -/
theorem stop_word_builder_correct_witness :
    final_stop_words_set_for_analysis " \n " = ∅ :=
  stop_word_builder_correct.2.1 " \n " (by decide)

/-- C9: under the tagger contract (at least seven feature fields, field 6
either the sentinel `"*"` or a non-empty base form), every morpheme the
adapter produces has a non-empty base form and a non-empty surface form;
and whenever field 6 is `"*"`, the built morpheme's base form is its
surface form. -/
theorem tokenizer_base_form_nonempty (tag : String → List RawNode) (text : String)
    (h : ∀ n ∈ tag text, 7 ≤ n.features.length ∧ (field n 6 = "*" ∨ field n 6 ≠ "")) :
    (∀ m ∈ perform_morphological_analysis tag text, m.base ≠ "" ∧ m.surface ≠ "")
    ∧ (∀ n : RawNode, field n 6 = "*" → (mkMorpheme n).base = n.surface) := by
  constructor
  · intro m hm
    rw [perform_morphological_analysis] at hm
    by_cases ht : text = ""
    · rw [if_pos ht] at hm
      simp at hm
    · rw [if_neg ht] at hm
      rcases List.mem_filterMap.mp hm with ⟨n, hn, hmk⟩
      by_cases hsurf : n.surface = ""
      · rw [if_pos hsurf] at hmk
        simp at hmk
      · rw [if_neg hsurf] at hmk
        have hm2 : mkMorpheme n = m := Option.some.inj hmk
        subst hm2
        refine ⟨?_, hsurf⟩
        show (if field n 6 ≠ "*" then field n 6 else n.surface) ≠ ""
        by_cases h6 : field n 6 = "*"
        · rw [if_neg (by simp [h6])]
          exact hsurf
        · rw [if_pos h6]
          rcases (h n hn).2 with h7 | h7
          · exact absurd h7 h6
          · exact h7
  · intro n h6
    show (if field n 6 ≠ "*" then field n 6 else n.surface) = n.surface
    rw [if_neg (by simp [h6])]

/-- Witness for C9: the toy tagger's output satisfies the contract and
the adapter's morphemes all have non-empty base forms. -/
theorem tokenizer_base_form_nonempty_witness :
    (∀ n ∈ exampleTag "A B C",
        7 ≤ n.features.length ∧ (field n 6 = "*" ∨ field n 6 ≠ ""))
    ∧ (∀ m ∈ perform_morphological_analysis exampleTag "A B C",
        m.base ≠ "" ∧ m.surface ≠ "") :=
  ⟨by decide, (tokenizer_base_form_nonempty exampleTag "A B C" (by decide)).1⟩

theorem pyLowerChar_not_upper (c : Char) :
    ¬(65 ≤ (pyLowerChar c).toNat ∧ (pyLowerChar c).toNat ≤ 90) := by
  by_cases hc : 65 ≤ c.toNat ∧ c.toNat ≤ 90
  · rw [pyLowerChar, if_pos hc]
    have hv : (Char.ofNat (c.toNat + 32)).toNat = c.toNat + 32 := by
      have hval : c.toNat + 32 < 0xd800 := by omega
      have hvc : (c.toNat + 32).isValidChar := Or.inl hval
      rw [Char.ofNat, dif_pos hvc]
      rfl
    rw [hv]
    omega
  · rw [pyLowerChar, if_neg hc]
    exact hc

theorem stop_set_elements_lowered (s : String) (w : String)
    (h : w ∈ final_stop_words_set_for_analysis s) : ∃ v : String, w = pyLower v := by
  rw [final_stop_words_set_for_analysis] at h
  by_cases hs : pyStrip s = ""
  · rw [if_pos hs] at h
    simp at h
  · rw [if_neg hs] at h
    rcases List.mem_map.mp (List.mem_toFinset.mp h) with ⟨v, _, rfl⟩
    exact ⟨v, rfl⟩

/-- C10: the stop-word set holds only lowercased entries while the
analyzers test the raw base form, so a base form containing an uppercase
Latin letter is never a member of the built stop-word set, and all three
analyzer filters keep such a morpheme (given their part-of-speech side
conditions) even when its lowercased base form is a stop word. -/
theorem stopword_case_asymmetry (s : String) (target : List String) (m : Morpheme)
    (h1 : ∃ c ∈ m.base.data, 65 ≤ c.toNat ∧ c.toNat ≤ 90)
    (_h2 : pyLower m.base ∈ final_stop_words_set_for_analysis s)
    (h3 : m.pos ∈ target)
    (h4 : ¬(m.pos = "名詞" ∧ m.posSub1 ∈ reportNounExcl))
    (h5 : 2 ≤ m.base.length ∨ m.pos = "名詞") :
    m.base ∉ final_stop_words_set_for_analysis s
    ∧ reportKeep target (final_stop_words_set_for_analysis s) m = true
    ∧ wordcloudKeep target (final_stop_words_set_for_analysis s) m = true
    ∧ netKeep target (final_stop_words_set_for_analysis s) m = true := by
  have hnot : m.base ∉ final_stop_words_set_for_analysis s := by
    intro hmem
    rcases stop_set_elements_lowered s m.base hmem with ⟨v, hv⟩
    rcases h1 with ⟨c, hc, hupper⟩
    rw [hv] at hc
    rcases List.mem_map.mp hc with ⟨c', _, rfl⟩
    exact pyLowerChar_not_upper c' hupper
  have hwc : ¬(m.pos = "名詞" ∧ m.posSub1 ∈ wordcloudNounExcl) := by
    rintro ⟨hp, hmem⟩
    refine h4 ⟨hp, ?_⟩
    simp only [wordcloudNounExcl, List.mem_cons, List.not_mem_nil, or_false] at hmem
    rcases hmem with h | h | h | h <;> simp [reportNounExcl, h]
  have hlen : ¬(m.base.length < 2 ∧ m.pos ≠ "名詞") := by
    rintro ⟨hl, hp⟩
    rcases h5 with h5 | h5
    · omega
    · exact hp h5
  refine ⟨hnot, ?_, ?_, ?_⟩
  · simp [reportKeep, h3, h4, hnot]
  · simp [wordcloudKeep, h3, hwc, hnot]
  · simp [netKeep, h3, h4, hlen, hnot]

/-- A morpheme whose base form carries an uppercase Latin letter, used as
the C10 witness input. -/
def catM : Morpheme :=
  { surface := "Cat", base := "Cat", pos := "名詞", posSub1 := "固有名詞",
    posSub2 := "", posSub3 := "", conjType := "", conjForm := "",
    reading := "", pron := "" }

/-- Witness for C10: with stop-word input "cat", the morpheme with base
form "Cat" is kept by all three filters although its lowercased base form
is a stop word. -/
theorem stopword_case_asymmetry_witness :
    (∃ c ∈ catM.base.data, 65 ≤ c.toNat ∧ c.toNat ≤ 90)
    ∧ pyLower catM.base ∈ final_stop_words_set_for_analysis "cat"
    ∧ (catM.base ∉ final_stop_words_set_for_analysis "cat"
        ∧ reportKeep ["名詞"] (final_stop_words_set_for_analysis "cat") catM = true
        ∧ wordcloudKeep ["名詞"] (final_stop_words_set_for_analysis "cat") catM = true
        ∧ netKeep ["名詞"] (final_stop_words_set_for_analysis "cat") catM = true) :=
  ⟨by decide, by decide,
    stopword_case_asymmetry "cat" ["名詞"] catM (by decide) (by decide) (by decide)
      (by decide) (Or.inr (by decide))⟩

end TextMining
